import Mathlib

/-!
Verification development for the Neovim UI event-processing core
(`src/ui.cpp`).  The C++ code is shallowly embedded: the mutable
`ui_controller` becomes a value type `ui_state`, each member function
becomes a pure state transformer, and the window-delegate callbacks
(`redraw`, `title_set`, `font_set`, `options_set`) are made explicit as a
list of emitted notifications.  `std::abort()` (reached through
`get_grid` on any grid id other than 1) is modelled by returning `none`.

The data structures declared in `ui.hpp` (which is not part of the
sources here: only `ui.cpp` is) are modelled from the spec's data model:
`rgb_color`, `cell_attributes`, `cell`, `grid`, `cursor_attributes`,
`mode_info`, `options`.  Machine integers (`size_t`, `uint32_t`,
`uint16_t`, `long`) are modelled as `Nat`/`Int` with explicit reduction
modulo the word size at each narrowing conversion.
-/

namespace nvim

/-- 2^64, the modulus of `size_t` arithmetic. -/
def u64 : Nat := 18446744073709551616

/-- 2^32, the modulus of `uint32_t` arithmetic. -/
def u32 : Nat := 4294967296

/-- 2^16, the modulus of `uint16_t` arithmetic. -/
def u16 : Nat := 65536

/-- `msg::integer::as<size_t>`: conversion of a wire integer to `size_t`. -/
def to_size (i : Int) : Nat := (i % (18446744073709551616 : Int)).toNat

/-- `msg::integer::as<uint32_t>`. -/
def to_u32 (i : Int) : Nat := (i % (4294967296 : Int)).toNat

/-- `msg::integer::as<uint16_t>`. -/
def to_u16 (i : Int) : Nat := (i % (65536 : Int)).toNat

/-- `msg::integer::as<long>` (64-bit signed wrap-around). -/
def to_long (i : Int) : Int :=
  (i + 9223372036854775808) % 18446744073709551616 - 9223372036854775808

/-- Modelled from the spec: a color field of an attribute record from
`ui.hpp` is "either a concrete RGB value or a use-default sentinel"
(spec section 3).  `rgb_color(v)` produces a concrete color,
`rgb_color(v, rgb_color::default_tag)` a default-flagged one, and
`is_default` tests the flag. -/
structure rgb_color where
  value : Nat
  is_default : Bool
deriving DecidableEq

/-- Flag bit for bold (bit values are internal to `ui.hpp`; only
distinctness matters to `ui.cpp`). -/
def f_bold : Nat := 1

/-- Flag bit for italic. -/
def f_italic : Nat := 2

/-- Flag bit for underline. -/
def f_underline : Nat := 4

/-- Flag bit for undercurl. -/
def f_undercurl : Nat := 8

/-- Flag bit for strikethrough. -/
def f_strikethrough : Nat := 16

/-- Flag bit for reverse video. -/
def f_reverse : Nat := 32

/-- Flag bit marking the left half of a double-width glyph. -/
def f_doublewidth : Nat := 64

/-- Modelled from the spec: an attribute record (spec section 3):
foreground/background/special colors plus a flag set. -/
structure cell_attributes where
  foreground : rgb_color
  background : rgb_color
  special : rgb_color
  flags : Nat
deriving DecidableEq

/-- Modelled from the spec: a grid cell: "a short text payload, a
reference to a resolved attribute record, and a double-width flag"
(the flag lives in `attrs.flags`).  `ui.cpp` treats `attrs` as a value
(`cell->attrs = left->attrs`, `adjust_defaults(def, cell.attrs)`). -/
structure cell where
  text : String
  attrs : cell_attributes
deriving DecidableEq

/-- Cursor shape enumeration (first enumerator `block` is the
zero-initialized value). -/
inductive cursor_shape
  | block
  | vertical
  | horizontal
deriving DecidableEq

/-- Modelled from the spec: per-mode cursor rendering attributes
(shape, coverage percentage, blink timings, resolved colors). -/
structure cursor_attributes where
  shape : cursor_shape
  percentage : Nat
  blinkwait : Nat
  blinkon : Nat
  blinkoff : Nat
  blinks : Bool
  foreground : rgb_color
  background : rgb_color
  special : rgb_color
deriving DecidableEq

/-- Modelled from the spec: the grid: width, height, row-major flat cell
sequence, cursor position, cursor attribute snapshot and version tick. -/
structure grid where
  grid_width : Nat
  grid_height : Nat
  cells : List cell
  cursor_row : Nat
  cursor_col : Nat
  cursor_attrs : cursor_attributes
  draw_tick : Nat
deriving DecidableEq

/-- A mode table entry: mode name plus cursor attributes. -/
structure mode_info where
  mode_name : String
  cursor_attrs : cursor_attributes
deriving DecidableEq

/-- Modelled from the spec: the `options` struct of extension flags,
compared as a whole by `option_set` handling.  The guifont string is
stored separately (`option_guifont`) and is not part of this struct. -/
structure options where
  ext_cmdline : Bool
  ext_hlstate : Bool
  ext_linegrid : Bool
  ext_messages : Bool
  ext_multigrid : Bool
  ext_popupmenu : Bool
  ext_tabline : Bool
  ext_termcolors : Bool
deriving DecidableEq

/-- A parsed font: family name and point size.  `double` sizes are
modelled as rationals; every size the code produces is an exact
integer (digit accumulation) or the caller's default. -/
structure font where
  family : String
  size : Rat
deriving DecidableEq

/-- A decoded msgpack value as consumed by the redraw handlers
(the generic structured values of the wire format). -/
inductive msg_object
  | int (n : Int)
  | boolean (b : Bool)
  | str (s : String)
  | arr (xs : List msg_object)
  | map (xs : List (msg_object × msg_object))

/-- Zero-initialized color (all bits clear: a concrete black). -/
def rgb0 : rgb_color := ⟨0, false⟩

/-- Modelled from the spec: a default-constructed attribute record; its
color fields start as use-default sentinels (spec section 3: colors are
"either a concrete RGB value or a use-default sentinel"; the id-0 record
tracks the defaults). -/
def attrs0 : cell_attributes :=
  { foreground := ⟨0, true⟩, background := ⟨0, true⟩, special := ⟨0, true⟩, flags := 0 }

/-- A default-constructed (empty) cell. -/
def cell0 : cell := { text := "", attrs := attrs0 }

/-- Zero-initialized cursor attributes. -/
def cursor_attrs0 : cursor_attributes :=
  { shape := .block, percentage := 0, blinkwait := 0, blinkon := 0, blinkoff := 0,
    blinks := false, foreground := rgb0, background := rgb0, special := rgb0 }

/-- Value-initialized `mode_info` (`mode_info info = {}`). -/
def mode_info0 : mode_info := { mode_name := "", cursor_attrs := cursor_attrs0 }

/-- All extension options off. -/
def opts0 : options := ⟨false, false, false, false, false, false, false, false⟩

/-- The whole `ui_controller` state: highlight table, the two grids of
the double buffer (as values: `writing` is the mutation target,
`complete` the published snapshot), mode table, and the mutex-guarded
option state.  `flush_wait` models whether a synchronous-flush waiter is
registered. -/
structure ui_state where
  hltable : List cell_attributes
  writing : grid
  complete : grid
  mode_info_table : List mode_info
  current_mode : Nat
  option_title : String
  option_guifont : String
  opts : options
  flush_wait : Bool
deriving DecidableEq

/-- The window-delegate callbacks fired while processing events. -/
inductive notif
  | redraw
  | title_set
  | font_set
  | options_set
deriving DecidableEq

/-- Number of `options_set` callbacks in a notification list. -/
def count_opt : List notif → Nat
  | [] => 0
  | .options_set :: ns => count_opt ns + 1
  | _ :: ns => count_opt ns

/-! ## Highlight table (`hl_get_entry`, `hl_new_entry`) -/

/-- `hl_get_entry`: resolve a highlight id; out-of-range ids fall back
to the id-0 (default) entry. -/
def hl_get_entry (table : List cell_attributes) (hlid : Nat) : cell_attributes :=
  if hlid < table.length then table.getD hlid attrs0 else table.getD 0 attrs0

/-- `hl_new_entry`: prepare the table slot for a (re)definition and
return the updated table together with the index of the entry the
definition will be written to (`&table.back()` / `&table[hlid]`).
Mirrors the source exactly, including the `table.resize(hlid, ...)`
in the gap case, after which `table.back()` is index `hlid - 1`. -/
def hl_new_entry (table : List cell_attributes) (hlid : Nat) :
    List cell_attributes × Nat :=
  let table_size := table.length
  if hlid = table_size then
    (table ++ [table.getD 0 attrs0], table_size)
  else if hlid < table_size then
    (table.set hlid (table.getD 0 attrs0), hlid)
  else
    (table ++ List.replicate (hlid - table_size) (table.getD 0 attrs0), hlid - 1)

/-- `set_rgb_color`: a non-integer value logs a type error and leaves
the color unchanged; an integer is narrowed to `uint32_t` and stored as
a concrete (non-default) color. -/
def set_rgb_color (c : rgb_color) (o : msg_object) : rgb_color :=
  match o with
  | .int v => ⟨to_u32 v, false⟩
  | _ => c

/-- One key/value pair of the `hl_attr_define` attribute map.  Flag keys
set their bit regardless of the value; unrecognized or non-string keys
are logged and ignored. -/
def hl_apply_attr (a : cell_attributes) (p : msg_object × msg_object) :
    cell_attributes :=
  match p.1 with
  | .str "foreground" => { a with foreground := set_rgb_color a.foreground p.2 }
  | .str "background" => { a with background := set_rgb_color a.background p.2 }
  | .str "underline" => { a with flags := a.flags ||| f_underline }
  | .str "bold" => { a with flags := a.flags ||| f_bold }
  | .str "italic" => { a with flags := a.flags ||| f_italic }
  | .str "strikethrough" => { a with flags := a.flags ||| f_strikethrough }
  | .str "undercurl" => { a with flags := a.flags ||| f_undercurl }
  | .str "special" => { a with special := set_rgb_color a.special p.2 }
  | .str "reverse" => { a with flags := a.flags ||| f_reverse }
  | .str _ => a
  | _ => a

/-- `ui_controller::hl_attr_define`: create/backfill a slot via
`hl_new_entry`, parse the named attributes into it, then swap
foreground/background if the reverse flag ended up set. -/
def hl_attr_define (s : ui_state) (hlid : Nat)
    (defn : List (msg_object × msg_object)) : ui_state :=
  let tn := hl_new_entry s.hltable hlid
  let a := defn.foldl hl_apply_attr (tn.1.getD tn.2 attrs0)
  let a :=
    if a.flags &&& f_reverse ≠ 0 then
      { a with foreground := a.background, background := a.foreground }
    else a
  { s with hltable := tn.1.set tn.2 a }

/-! ## Default colors (`adjust_defaults`, `default_colors_set`) -/

/-- `adjust_defaults`: re-resolve each use-default color field of a
record against the (new) default record; the reverse flag selects the
swapped default for foreground/background. -/
def adjust_defaults (dd : cell_attributes) (a : cell_attributes) :
    cell_attributes :=
  let reversed := a.flags &&& f_reverse ≠ 0
  { a with
    foreground :=
      if a.foreground.is_default then
        (if reversed then dd.background else dd.foreground)
      else a.foreground,
    background :=
      if a.background.is_default then
        (if reversed then dd.foreground else dd.background)
      else a.background,
    special := if a.special.is_default then dd.special else a.special }

/-- The id-0 record written by `default_colors_set`: the three colors
carry the default tag, flags cleared. -/
def dcs_default (fg bg sp : Nat) : cell_attributes :=
  { foreground := ⟨fg, true⟩, background := ⟨bg, true⟩, special := ⟨sp, true⟩,
    flags := 0 }

/-- `ui_controller::default_colors_set`: rewrite id 0, then run
`adjust_defaults` over every highlight-table record and over the
attributes of every cell of the writing grid.  The complete grid and
the cursor attributes are not touched. -/
def default_colors_set (s : ui_state) (fg bg sp : Nat) : ui_state :=
  { s with
    hltable := (s.hltable.set 0 (dcs_default fg bg sp)).map
      (adjust_defaults (dcs_default fg bg sp)),
    writing := { s.writing with
      cells := s.writing.cells.map
        (fun c => { c with attrs := adjust_defaults (dcs_default fg bg sp) c.attrs }) } }

/-! ## `grid_line` (cell updates, row writing) -/

/-- The loop state of one `grid_line` event: `text`/`hlattr`/`repeat`
persist across updates of the same event (`cell_update update;` is
declared once before the loop). -/
structure cell_update where
  text : String
  hlattr : Option cell_attributes
  rep : Nat
deriving DecidableEq

/-- The default-constructed `cell_update`: null highlight pointer
("no highlight change"), repeat 0, empty text. -/
def cu_init : cell_update := { text := "", hlattr := none, rep := 0 }

/-- `cell_update::set`: type-check one element of the cells array as
`[text]`, `[text, hl_id]` or `[text, hl_id, repeat]` (exact lengths, in
that order) and update the loop state.  The one-element form only sets
`text` and `repeat`, so `hlattr` persists from the previous update. -/
def cell_update.set (ht : List cell_attributes) (u : cell_update)
    (o : msg_object) : Option cell_update :=
  match o with
  | .arr [.str t] => some { u with text := t, rep := 1 }
  | .arr [.str t, .int hl] =>
      some { text := t, hlattr := some (hl_get_entry ht (to_size hl)), rep := 1 }
  | .arr [.str t, .int hl, .int r] =>
      some { text := t, hlattr := some (hl_get_entry ht (to_size hl)),
             rep := to_size r }
  | _ => none

/-- Modelled from the spec: the `nvim::cell` constructor from the
missing `ui.hpp`, `cell(text, attrs_ptr)`: text plus the referenced
attribute record; a null pointer yields default-constructed
attributes. -/
def mk_cell (t : String) (h : Option cell_attributes) : cell :=
  { text := t, attrs := h.getD attrs0 }

/-- The inner write loop of the glyph branch: `cell[i] = *cell` for
`i` in `[1, repeat)` after `*cell = ...`; `set_run cells pos c n` sets
positions `pos, pos+1, ..., pos+n-1` to `c`. -/
def set_run (cells : List cell) (pos : Nat) (c : cell) : Nat → List cell
  | 0 => cells
  | n + 1 => set_run (cells.set pos c) (pos + 1) c n

/-- Write one glyph cell at `pos` and duplicate it `rep - 1` times
(the source writes index 0 unconditionally, then indices `1..rep-1`). -/
def write_run (cells : List cell) (pos : Nat) (c : cell) (rep : Nat) :
    List cell :=
  set_run (cells.set pos c) (pos + 1) c (rep - 1)

/-- The state threaded through one `grid_line` event: the grid being
mutated, the absolute flat index of the current cell, the cells
remaining in the row, and the persisting `cell_update`. -/
structure line_state where
  g : grid
  pos : Nat
  remaining : Nat
  upd : cell_update
deriving DecidableEq

/-- One iteration of the `grid_line` loop.  `none` models the early
returns (cell-update type error, row overflow, empty text in column
zero); each of them leaves the grid exactly as the previous iterations
left it. -/
def grid_line_step (ht : List cell_attributes) (row_begin : Nat)
    (st : line_state) (o : msg_object) : Option line_state :=
  match cell_update.set ht st.upd o with
  | none => none
  | some u =>
    if st.remaining < u.rep then none
    else if u.text = "" then
      -- Empty cells are the right half of a double width char: copy the
      -- left neighbor's attributes, then tag the left cell double-width.
      if st.pos = row_begin then none
      else
        let left := st.g.cells.getD (st.pos - 1) cell0
        let cells1 := st.g.cells.set st.pos
          { st.g.cells.getD st.pos cell0 with attrs := left.attrs }
        let cells2 := cells1.set (st.pos - 1)
          { left with attrs := { left.attrs with
              flags := left.attrs.flags ||| f_doublewidth } }
        some { g := { st.g with cells := cells2 }, pos := st.pos + 1,
               remaining := st.remaining - 1, upd := u }
    else
      some { g := { st.g with
               cells := write_run st.g.cells st.pos (mk_cell u.text u.hlattr) u.rep },
             pos := st.pos + u.rep, remaining := st.remaining - u.rep, upd := u }

/-- The `grid_line` loop: on any aborting iteration the grid produced by
the previous iterations is returned unchanged. -/
def grid_line_go (ht : List cell_attributes) (row_begin : Nat) :
    line_state → List msg_object → grid
  | st, [] => st.g
  | st, o :: os =>
    match grid_line_step ht row_begin st o with
    | none => st.g
    | some st1 => grid_line_go ht row_begin st1 os

/-- The trace of the `grid_line` loop as far as it succeeds: `some` of
the loop state after consuming all updates, `none` if some iteration
aborted. -/
def grid_line_fold (ht : List cell_attributes) (row_begin : Nat) :
    line_state → List msg_object → Option line_state
  | st, [] => some st
  | st, o :: os =>
    match grid_line_step ht row_begin st o with
    | none => none
    | some st1 => grid_line_fold ht row_begin st1 os

/-- `ui_controller::grid_line` on the grid itself: bounds-check row and
column, then run the update loop from flat index `row*width + col` with
`width - col` cells remaining. -/
def grid_line_impl (ht : List cell_attributes) (g : grid) (row col : Nat)
    (cells : List msg_object) : grid :=
  if g.grid_height ≤ row ∨ g.grid_width ≤ col then g
  else
    grid_line_go ht (row * g.grid_width)
      { g := g, pos := row * g.grid_width + col,
        remaining := g.grid_width - col, upd := cu_init } cells

/-! ## Remaining grid operations -/

/-- `std::vector::resize` on the cell sequence: truncate or extend with
default-constructed cells. -/
def resize_cells (l : List cell) (n : Nat) : List cell :=
  if n ≤ l.length then l.take n else l ++ List.replicate (n - l.length) cell0

/-- The window-notification-producing result of a handler; `none`
models `std::abort()` from `get_grid` on a grid id other than 1. -/
abbrev handler_result := Option (ui_state × List notif)

/-- `ui_controller::grid_resize`. -/
def grid_resize (s : ui_state) (gid w h : Nat) : handler_result :=
  if gid = 1 then
    some ({ s with writing := { s.writing with
      grid_width := w, grid_height := h,
      cells := resize_cells s.writing.cells ((w * h) % u64) } }, [])
  else none

/-- `ui_controller::grid_line` at the controller level. -/
def grid_line (s : ui_state) (gid row col : Nat) (cells : List msg_object) :
    handler_result :=
  if gid = 1 then
    some ({ s with writing := grid_line_impl s.hltable s.writing row col cells }, [])
  else none

/-- `ui_controller::grid_clear`: every cell becomes an empty glyph whose
background is the id-0 background; other attributes are
default-constructed. -/
def grid_clear (s : ui_state) (gid : Nat) : handler_result :=
  if gid = 1 then
    some ({ s with writing := { s.writing with
      cells := s.writing.cells.map (fun _ =>
        { text := "", attrs := { attrs0 with
            background := (s.hltable.getD 0 attrs0).background } }) } }, [])
  else none

/-- `ui_controller::grid_cursor_goto`: bounds-checked; out of bounds
logs and leaves the cursor unchanged. -/
def grid_cursor_goto (s : ui_state) (gid row col : Nat) : handler_result :=
  if gid = 1 then
    if s.writing.grid_height ≤ row ∨ s.writing.grid_width ≤ col then some (s, [])
    else some ({ s with writing :=
      { s.writing with cursor_row := row, cursor_col := col } }, [])
  else none

/-- One `memcpy` of a row segment of `w` cells from flat position `src`
to flat position `dst`. -/
def copy_row (cells : List cell) (dst src : Nat) (w : Nat) : List cell :=
  (List.range w).foldl
    (fun cs k => cs.set (dst + k) (cs.getD (src + k) cell0)) cells

/-- The scroll copy loop: `count` row copies, stepping `step` flat
positions per iteration (negative step for downward scrolls). -/
def scroll_loop (w : Nat) :
    List cell → Int → Int → Int → Nat → List cell
  | cells, _, _, _, 0 => cells
  | cells, dest, src, step, n + 1 =>
    scroll_loop w (copy_row cells dest.toNat src.toNat w)
      (dest + step) (src + step) step n

/-- `ui_controller::grid_scroll`: validate the rectangle, then copy rows
in the direction that is safe for the overlap; a non-positive row count
degenerates to no copies. -/
def grid_scroll (s : ui_state) (gid top bottom left right : Nat)
    (rows : Int) : handler_result :=
  if bottom < top ∨ right < left then some (s, [])
  else if gid = 1 then
    let g := s.writing
    let height := bottom - top
    let width := right - left
    if g.grid_height < bottom ∨ g.grid_width < right then some (s, [])
    else
      let w : Int := (g.grid_width : Int)
      let dest : Int :=
        if 0 ≤ rows then ((top * g.grid_width + left : Nat) : Int)
        else (((bottom - 1) * g.grid_width + left : Nat) : Int)
      let step : Int := if 0 ≤ rows then w else -w
      let count : Int :=
        if 0 ≤ rows then (height : Int) - rows else (height : Int) + rows
      some ({ s with writing := { g with
        cells := scroll_loop width g.cells dest (dest + w * rows) step
          count.toNat } }, [])
  else none

/-! ## Flush, title, modes, options -/

/-- `ui_controller::flush`: bump the writing grid's tick, publish it as
the complete grid, and overwrite the new writing grid with a full copy
of the published content.  A registered synchronous waiter is released
instead of the redraw notification. -/
def flush (s : ui_state) : ui_state × List notif :=
  let completed := { s.writing with draw_tick := s.writing.draw_tick + 1 }
  if s.flush_wait then
    ({ s with writing := completed, complete := completed, flush_wait := false }, [])
  else
    ({ s with writing := completed, complete := completed }, [.redraw])

/-- `ui_controller::set_title`: store the title and fire `title_set`
unconditionally. -/
def set_title (s : ui_state) (t : String) : ui_state × List notif :=
  ({ s with option_title := t }, [.title_set])

/-- `to_cursor_shape`: unrecognized shapes log an error and fall back to
block. -/
def to_cursor_shape (o : msg_object) : cursor_shape :=
  match o with
  | .str "block" => .block
  | .str "vertical" => .vertical
  | .str "horizontal" => .horizontal
  | _ => .block

/-- `set_color_attrs`: resolve `attr_id` through the highlight table;
id 0 swaps foreground and background. -/
def set_color_attrs (ca : cursor_attributes) (ht : List cell_attributes)
    (o : msg_object) : cursor_attributes :=
  match o with
  | .int v =>
    let hlid := to_size v
    let hl := hl_get_entry ht hlid
    let ca := { ca with special := hl.special }
    if hlid ≠ 0 then
      { ca with foreground := hl.foreground, background := hl.background }
    else
      { ca with foreground := hl.background, background := hl.foreground }
  | _ => ca

/-- `to<uint16_t>`: integer narrowed, anything else value-initialized. -/
def to_u16_obj (o : msg_object) : Nat :=
  match o with
  | .int v => to_u16 v
  | _ => 0

/-- `to<msg::string>`: string passed through, anything else empty. -/
def to_str_obj (o : msg_object) : String :=
  match o with
  | .str s => s
  | _ => ""

/-- One key/value pair of a `mode_info_set` property map. -/
def mode_pair (ht : List cell_attributes) (info : mode_info)
    (p : msg_object × msg_object) : mode_info :=
  match p.1 with
  | .str "cursor_shape" =>
      { info with cursor_attrs := { info.cursor_attrs with
          shape := to_cursor_shape p.2 } }
  | .str "cell_percentage" =>
      { info with cursor_attrs := { info.cursor_attrs with
          percentage := to_u16_obj p.2 } }
  | .str "blinkwait" =>
      { info with cursor_attrs := { info.cursor_attrs with
          blinkwait := to_u16_obj p.2 } }
  | .str "blinkon" =>
      { info with cursor_attrs := { info.cursor_attrs with
          blinkon := to_u16_obj p.2 } }
  | .str "blinkoff" =>
      { info with cursor_attrs := { info.cursor_attrs with
          blinkoff := to_u16_obj p.2 } }
  | .str "name" => { info with mode_name := to_str_obj p.2 }
  | .str "attr_id" =>
      { info with cursor_attrs := set_color_attrs info.cursor_attrs ht p.2 }
  | _ => info

/-- `to_mode_info`: parse one property map; blinking is enabled only if
all three blink timings are non-zero. -/
def to_mode_info (ht : List cell_attributes)
    (m : List (msg_object × msg_object)) : mode_info :=
  let info := m.foldl (mode_pair ht) mode_info0
  if info.cursor_attrs.blinkwait ≠ 0 ∧ info.cursor_attrs.blinkoff ≠ 0 ∧
      info.cursor_attrs.blinkon ≠ 0 then
    { info with cursor_attrs := { info.cursor_attrs with blinks := true } }
  else info

/-- `ui_controller::mode_info_set`: rebuild the mode table wholesale
(non-map entries are logged and skipped) and reset the current-mode
index to 0. -/
def mode_info_set (s : ui_state) (enabled : Bool) (maps : List msg_object) :
    ui_state :=
  { s with
    current_mode := 0,
    mode_info_table := maps.foldl
      (fun acc o =>
        match o with
        | .map m => acc ++ [to_mode_info s.hltable m]
        | _ => acc) [] }

/-- `ui_controller::mode_change`: bounds-checked; in range it installs
the selected mode's cursor attributes on the writing grid.  The stored
`current_mode` index is not written here. -/
def mode_change (s : ui_state) (name : String) (index : Nat) : ui_state :=
  if s.mode_info_table.length ≤ index then s
  else { s with writing := { s.writing with
    cursor_attrs := (s.mode_info_table.getD index mode_info0).cursor_attrs } }

/-- `set_ext_option`: a non-boolean value logs and is ignored. -/
def set_ext (s : ui_state) (value : msg_object)
    (upd : options → Bool → options) : ui_state × List notif :=
  match value with
  | .boolean b => ({ s with opts := upd s.opts b }, [])
  | _ => (s, [])

/-- `ui_controller::set_option` (named `ui_set_option` here since
`set_option` is a Lean keyword): fixed dispatch on the option name; the
guifont string fires `font_set`; unrecognized names are ignored. -/
def ui_set_option (s : ui_state) (name : String) (value : msg_object) :
    ui_state × List notif :=
  if name = "guifont" then
    match value with
    | .str str => ({ s with option_guifont := str }, [.font_set])
    | _ => (s, [])
  else if name = "ext_cmdline" then
    set_ext s value (fun o b => { o with ext_cmdline := b })
  else if name = "ext_hlstate" then
    set_ext s value (fun o b => { o with ext_hlstate := b })
  else if name = "ext_linegrid" then
    set_ext s value (fun o b => { o with ext_linegrid := b })
  else if name = "ext_messages" then
    set_ext s value (fun o b => { o with ext_messages := b })
  else if name = "ext_multigrid" then
    set_ext s value (fun o b => { o with ext_multigrid := b })
  else if name = "ext_popupmenu" then
    set_ext s value (fun o b => { o with ext_popupmenu := b })
  else if name = "ext_tabline" then
    set_ext s value (fun o b => { o with ext_tabline := b })
  else if name = "ext_termcolors" then
    set_ext s value (fun o b => { o with ext_termcolors := b })
  else (s, [])

/-! ## Font-list parsing (`make_font`, `find_unescaped_comma`,
`get_fonts`) -/

/-- The trailing-digit scan of `make_font`, run over the reversed
character list with the accumulators of the source loop (`size`,
`multiply`, both `size_t`).  Returns the accumulated size and the
number of trailing digit characters consumed. -/
def scan_sz : List Char → Nat → Nat → Nat × Nat
  | [], size, _ => (size, 0)
  | c :: rest, size, mult =>
    if c.isDigit then
      let r := scan_sz rest ((size + mult * (c.toNat - 48)) % u64) ((mult * 10) % u64)
      (r.1, r.2 + 1)
    else (size, 0)

/-- `make_font`: strip a trailing `:h<digits>` suffix when the parsed
size is non-zero, otherwise keep the whole string as the family and use
the default size. -/
def make_font (chars : List Char) (d : Rat) : font :=
  let r := scan_sz chars.reverse 0 1
  let size := r.1
  let nd := r.2
  let index := if nd = chars.length then 0 else chars.length - nd - 1
  if size ≠ 0 ∧ index ≠ 0 ∧ chars.getD index ' ' = 'h' ∧
      chars.getD (index - 1) ' ' = ':' then
    { family := String.mk (chars.take (index - 1)), size := (size : Rat) }
  else
    { family := String.mk chars, size := d }

/-- Linear scan of `find_unescaped_comma`: the first position at or
after `i` holding a comma that is preceded by a character other than a
backslash (`pos != 0 && string[pos - 1] != '\\'`: a comma at position 0
or right after a backslash is skipped and the search continues).
Fuel-driven; the fuel is always at least the remaining length. -/
def fuc_scan (s : List Char) : Nat → Nat → Option Nat
  | _, 0 => none
  | i, fuel + 1 =>
    if i < s.length then
      if s.getD i ' ' = ',' ∧ i ≠ 0 ∧ ¬s.getD (i - 1) ' ' = '\\' then some i
      else fuc_scan s (i + 1) fuel
    else none

/-- `find_unescaped_comma` (`none` models `std::string_view::npos`). -/
def find_unescaped_comma (s : List Char) (start : Nat) : Option Nat :=
  fuc_scan s start (s.length + 1)

/-- Scan of `find_first_not_of(' ', start)`. -/
def ffns_scan (s : List Char) : Nat → Nat → Option Nat
  | _, 0 => none
  | i, fuel + 1 =>
    if i < s.length then
      if s.getD i ' ' = ' ' then ffns_scan s (i + 1) fuel else some i
    else none

/-- `std::string::find_first_not_of(' ', start)`. -/
def find_first_not_of_space (s : List Char) (start : Nat) : Option Nat :=
  ffns_scan s start (s.length + 1)

/-- The field loop of `get_fonts`.  When `find_first_not_of` yields
npos, the next iteration's `substr(npos)` throws `std::out_of_range`,
modelled as `none` (the loop itself cannot exit through its dead
`pos == npos` check). -/
def get_fonts_loop (s : List Char) (d : Rat) : Nat → Nat → Option (List font)
  | _, 0 => none
  | index, fuel + 1 =>
    match find_unescaped_comma s index with
    | none =>
      if index ≤ s.length then some [make_font (s.drop index) d] else none
    | some pos =>
      let piece := (s.drop index).take (pos - index)
      match find_first_not_of_space s (pos + 1) with
      | some next =>
        (get_fonts_loop s d next fuel).map (fun fs => make_font piece d :: fs)
      | none => none

/-- `ui_controller::get_fonts` on a stored guifont string: an empty
option yields no fonts; otherwise split on unescaped commas, skipping
spaces after each comma. -/
def get_fonts (guifont : String) (d : Rat) : Option (List font) :=
  if guifont.length = 0 then some []
  else get_fonts_loop guifont.toList d 0 (guifont.length + 2)

/-! ### Declarative font-list parser, following the spec's words
(the refinement side against which `get_fonts` is verified). -/

/-- A separator position: a comma that is preceded by a character other
than a backslash.  A comma at the very start of the string, or one
right after a backslash, never separates fields. -/
def sep_at (s : List Char) (p : Nat) : Prop :=
  p < s.length ∧ s.getD p ' ' = ',' ∧ p ≠ 0 ∧ s.getD (p - 1) ' ' ≠ '\\'

instance sep_at_decidable (s : List Char) (p : Nat) : Decidable (sep_at s p) := by
  unfold sep_at
  infer_instance

/-- All separator positions at or after `i`, in ascending order. -/
def seps_from (s : List Char) (i : Nat) : List Nat :=
  (List.range s.length).filter (fun p => decide (i ≤ p ∧ sep_at s p))

/-- The decimal value of a digit string, most significant digit
first. -/
def dec_val (ds : List Char) : Nat :=
  ds.foldl (fun a c => a * 10 + (c.toNat - 48)) 0

/-- The decimal value of a digit string read least significant digit
first (used to relate `scan_sz`, which scans from the end, with
`dec_val`). -/
def revval : List Char → Nat
  | [] => 0
  | c :: r => (c.toNat - 48) + 10 * revval r

/-- One field, by the spec's words: take the maximal trailing digit
run; if it is non-empty with non-zero value (as `size_t`) and preceded
by `:h`, strip the `:h<digits>` suffix and use the digits as the point
size, otherwise keep the whole field as the family and use the default
size. -/
def spec_make_font (cs : List Char) (d : Rat) : font :=
  let ds := (cs.reverse.takeWhile Char.isDigit).reverse
  let sz := dec_val ds % u64
  let t := cs.take (cs.length - ds.length)
  if sz ≠ 0 ∧ 2 ≤ t.length ∧ t.getD (t.length - 1) ' ' = 'h' ∧
      t.getD (t.length - 2) ' ' = ':' then
    { family := String.mk (t.take (t.length - 2)), size := (sz : Rat) }
  else
    { family := String.mk cs, size := d }

/-- The fields determined by a list of separator positions: each field
runs from the current start to the next separator, and the next field
starts right after the separator with every leading space skipped.  If
nothing but spaces follows a separator, the parse fails (the out-of-
range `substr` throw of `get_fonts`). -/
def fields_from (s : List Char) (d : Rat) : Nat → List Nat → Option (List font)
  | i, [] => if i ≤ s.length then some [spec_make_font (s.drop i) d] else none
  | i, p :: ps =>
    let q := p + 1 + ((s.drop (p + 1)).takeWhile (fun c => c == ' ')).length
    if q < s.length then
      (fields_from s d q ps).map (fun fs => spec_make_font ((s.drop i).take (p - i)) d :: fs)
    else none

/-- The declarative font-list parser: split the stored string at every
separator comma, skip the spaces after each separator, and parse each
field with `spec_make_font`. -/
def spec_font_list (guifont : String) (d : Rat) : Option (List font) :=
  if guifont.length = 0 then some []
  else fields_from guifont.toList d 0 (seps_from guifont.toList 0)

/-! ## Event dispatcher (`is`, `get`, `apply_one`, `apply`,
`redraw_event`, `redraw`) -/

/-- The declared parameter types of the handler signatures.  Integral
parameter types (`size_t`, `long`, `uint32_t`) accept any wire integer
(narrowing permitted); `pObject` is the opaque `msg::object`
pass-through. -/
inductive param_type
  | pSize
  | pLong
  | pU32
  | pBool
  | pString
  | pArray
  | pMap
  | pObject
deriving DecidableEq

/-- The `is<T>` type-checking wrapper: integral non-bool types check
`msg::integer`, `msg::object` accepts anything, the rest check their
own wire type. -/
def is_type : param_type → msg_object → Bool
  | .pSize, o => match o with | .int _ => true | _ => false
  | .pLong, o => match o with | .int _ => true | _ => false
  | .pU32, o => match o with | .int _ => true | _ => false
  | .pBool, o => match o with | .boolean _ => true | _ => false
  | .pString, o => match o with | .str _ => true | _ => false
  | .pArray, o => match o with | .arr _ => true | _ => false
  | .pMap, o => match o with | .map _ => true | _ => false
  | .pObject, _ => true

/-- The left-to-right fold `(is<Ts>(args[index++]) && ...)` over the
first `|ts|` elements. -/
def types_match : List param_type → List msg_object → Bool
  | [], _ => true
  | _ :: _, [] => false
  | t :: ts, o :: os => is_type t o && types_match ts os

/-- `apply_one`: invoke the handler (returning the argument values it
is bound to) when the tuple is an array of at least the declared
parameter count whose leading elements type-check
(`size <= args.size() && (is<Ts>(args[index++]) && ...)`); otherwise a
type error is logged and the tuple is skipped (`none`). -/
def apply_one (ts : List param_type) (o : msg_object) :
    Option (List msg_object) :=
  match o with
  | .arr args =>
    if ts.length ≤ args.length then
      if types_match ts args then some (args.take ts.length) else none
    else none
  | _ => none

/-- The `apply` template at the signature level: one `apply_one`
verdict per parameter tuple, every tuple processed. -/
def apply (ts : List param_type) : List msg_object → List (Option (List msg_object))
  | [] => []
  | o :: os => apply_one ts o :: apply ts os

/-- Typed runners binding the checked arguments of each event to its
handler.  The catch-all branches are unreachable (the arguments were
just type-checked by `apply_one`). -/
def run_grid_resize (s : ui_state) : List msg_object → handler_result
  | [.int a, .int b, .int c] => grid_resize s (to_size a) (to_size b) (to_size c)
  | _ => some (s, [])

/-- Runner for `grid_line`. -/
def run_grid_line (s : ui_state) : List msg_object → handler_result
  | [.int a, .int b, .int c, .arr cs] =>
      grid_line s (to_size a) (to_size b) (to_size c) cs
  | _ => some (s, [])

/-- Runner for `grid_scroll`. -/
def run_grid_scroll (s : ui_state) : List msg_object → handler_result
  | [.int a, .int b, .int c, .int d, .int e, .int f] =>
      grid_scroll s (to_size a) (to_size b) (to_size c) (to_size d) (to_size e)
        (to_long f)
  | _ => some (s, [])

/-- Runner for `flush` (no parameters: every array tuple invokes it). -/
def run_flush (s : ui_state) : List msg_object → handler_result
  | _ => some (flush s)

/-- Runner for `grid_clear`. -/
def run_grid_clear (s : ui_state) : List msg_object → handler_result
  | [.int a] => grid_clear s (to_size a)
  | _ => some (s, [])

/-- Runner for `hl_attr_define`. -/
def run_hl_attr_define (s : ui_state) : List msg_object → handler_result
  | [.int a, .map m] => some (hl_attr_define s (to_size a) m, [])
  | _ => some (s, [])

/-- Runner for `default_colors_set`. -/
def run_default_colors (s : ui_state) : List msg_object → handler_result
  | [.int a, .int b, .int c] =>
      some (default_colors_set s (to_u32 a) (to_u32 b) (to_u32 c), [])
  | _ => some (s, [])

/-- Runner for `mode_info_set`. -/
def run_mode_info_set (s : ui_state) : List msg_object → handler_result
  | [.boolean b, .arr maps] => some (mode_info_set s b maps, [])
  | _ => some (s, [])

/-- Runner for `mode_change`. -/
def run_mode_change (s : ui_state) : List msg_object → handler_result
  | [.str n, .int i] => some (mode_change s n (to_size i), [])
  | _ => some (s, [])

/-- Runner for `grid_cursor_goto`. -/
def run_cursor_goto (s : ui_state) : List msg_object → handler_result
  | [.int a, .int b, .int c] =>
      grid_cursor_goto s (to_size a) (to_size b) (to_size c)
  | _ => some (s, [])

/-- Runner for `set_title`. -/
def run_set_title (s : ui_state) : List msg_object → handler_result
  | [.str t] => some (set_title s t)
  | _ => some (s, [])

/-- Runner for `option_set` tuples. -/
def run_set_option (s : ui_state) : List msg_object → handler_result
  | [.str n, v] => some (ui_set_option s n v)
  | _ => some (s, [])

/-- One tuple: type-check with `apply_one`, invoke the runner on
success, log-and-skip on mismatch. -/
def handle_tuple (sig : List param_type)
    (run : ui_state → List msg_object → handler_result)
    (s : ui_state) (o : msg_object) : handler_result :=
  match apply_one sig o with
  | some args => run s args
  | none => some (s, [])

/-- The `apply` template instantiated with state effects: invoke the
handler once per tuple, threading the state and concatenating the
notifications; an abort (`none`) ends the process. -/
def apply_event (sig : List param_type)
    (run : ui_state → List msg_object → handler_result) :
    ui_state → List msg_object → handler_result
  | s, [] => some (s, [])
  | s, o :: os =>
    match handle_tuple sig run s o with
    | none => none
    | some (s1, ns) =>
      match apply_event sig run s1 os with
      | none => none
      | some (s2, ns2) => some (s2, ns ++ ns2)

/-- The `option_set` block of `redraw_event`: snapshot the options,
apply all tuples, then fire `options_set` exactly when the options
struct changed (Neovim tends to send redundant option change events). -/
def option_set_event (s : ui_state) (tuples : List msg_object) :
    handler_result :=
  match apply_event [.pString, .pObject] run_set_option s tuples with
  | none => none
  | some (s1, ns) =>
    some (s1, if s1.opts = s.opts then ns else ns ++ [.options_set])

/-- `ui_controller::redraw_event`: events that are not a non-empty
array headed by a string log a type error and are skipped; recognized
names dispatch through `apply`; `option_set` snapshots the options
first and fires `options_set` once afterwards if they changed;
the mouse/icon/hl-group names are ignored, anything else is logged. -/
def redraw_event (s : ui_state) (e : msg_object) : handler_result :=
  match e with
  | .arr (.str name :: args) =>
    if name = "grid_line" then apply_event [.pSize, .pSize, .pSize, .pArray] run_grid_line s args
    else if name = "grid_resize" then apply_event [.pSize, .pSize, .pSize] run_grid_resize s args
    else if name = "grid_scroll" then apply_event [.pSize, .pSize, .pSize, .pSize, .pSize, .pLong] run_grid_scroll s args
    else if name = "flush" then apply_event [] run_flush s args
    else if name = "grid_clear" then apply_event [.pSize] run_grid_clear s args
    else if name = "hl_attr_define" then apply_event [.pSize, .pMap] run_hl_attr_define s args
    else if name = "default_colors_set" then apply_event [.pU32, .pU32, .pU32] run_default_colors s args
    else if name = "mode_info_set" then apply_event [.pBool, .pArray] run_mode_info_set s args
    else if name = "mode_change" then apply_event [.pString, .pSize] run_mode_change s args
    else if name = "grid_cursor_goto" then apply_event [.pSize, .pSize, .pSize] run_cursor_goto s args
    else if name = "set_title" then apply_event [.pString] run_set_title s args
    else if name = "option_set" then option_set_event s args
    else some (s, [])
  | _ => some (s, [])

/-- `ui_controller::redraw`: process a batch of events in order. -/
def redraw : ui_state → List msg_object → handler_result
  | s, [] => some (s, [])
  | s, e :: es =>
    match redraw_event s e with
    | none => none
    | some (s1, ns) =>
      match redraw s1 es with
      | none => none
      | some (s2, ns2) => some (s2, ns ++ ns2)

/-! ## Sample states for concrete evaluations -/

/-- A 2-by-2 grid of empty cells. -/
def g_sample : grid :=
  { grid_width := 2, grid_height := 2, cells := [cell0, cell0, cell0, cell0],
    cursor_row := 0, cursor_col := 0, cursor_attrs := cursor_attrs0,
    draw_tick := 0 }

/-- A freshly constructed controller state. -/
def sample_state : ui_state :=
  { hltable := [attrs0], writing := g_sample, complete := g_sample,
    mode_info_table := [], current_mode := 0, option_title := "",
    option_guifont := "", opts := opts0, flush_wait := false }

/-- A mode entry with a vertical cursor (distinguishable from the
zero-initialized one). -/
def mi_v : mode_info :=
  { mode_name := "v", cursor_attrs := { cursor_attrs0 with shape := .vertical } }

/-- A state with a two-entry mode table. -/
def s5 : ui_state := { sample_state with mode_info_table := [mode_info0, mi_v] }

/-- A cell holding the glyph `x`. -/
def c_x : cell := { text := "x", attrs := attrs0 }

/-- A one-row, four-column grid filled with `x` glyphs. -/
def g_row : grid :=
  { grid_width := 4, grid_height := 1, cells := [c_x, c_x, c_x, c_x],
    cursor_row := 0, cursor_col := 0, cursor_attrs := cursor_attrs0,
    draw_tick := 0 }

/-- A state whose writing grid is `g_row`. -/
def s_row : ui_state := { sample_state with writing := g_row }

/-- A cell holding the glyph `a` with the default attributes. -/
def c_a : cell := { text := "a", attrs := attrs0 }

/-- The loop state reached in `g_row` after the update
`["a", 0, 2]` starting at flat position 0: two `a` cells written,
position 2, two cells remaining. -/
def st1_row : line_state :=
  { g := { grid_width := 4, grid_height := 1, cells := [c_a, c_a, c_x, c_x],
           cursor_row := 0, cursor_col := 0, cursor_attrs := cursor_attrs0,
           draw_tick := 0 },
    pos := 2, remaining := 2,
    upd := { text := "a", hlattr := some attrs0, rep := 2 } }

/-- A reverse-video attribute record with a concrete foreground and a
use-default background and special. -/
def hl_rev : cell_attributes :=
  { foreground := ⟨5, false⟩, background := ⟨1, true⟩, special := ⟨0, true⟩,
    flags := f_reverse }

/-- A fully concrete (no use-default field) attribute record. -/
def hl_conc : cell_attributes :=
  { foreground := ⟨9, false⟩, background := ⟨8, false⟩, special := ⟨7, false⟩,
    flags := 0 }

/-- A two-cell writing grid carrying `hl_rev` and `hl_conc` attributes. -/
def g8 : grid :=
  { grid_width := 2, grid_height := 1,
    cells := [{ text := "q", attrs := hl_rev }, { text := "r", attrs := hl_conc }],
    cursor_row := 0, cursor_col := 0, cursor_attrs := cursor_attrs0,
    draw_tick := 3 }

/-- A state exercising `default_colors_set`: a two-entry highlight
table and a two-cell writing grid, with a distinct complete grid. -/
def s8 : ui_state :=
  { hltable := [attrs0, hl_rev], writing := g8, complete := g_sample,
    mode_info_table := [], current_mode := 0, option_title := "",
    option_guifont := "", opts := opts0, flush_wait := false }

/-- The claim's "re-resolves every color field marked use-default"
relation, following the spec's words: `b` is `a` with each use-default
color field replaced by the corresponding freshly set default (reverse
video selecting the swapped default for foreground/background) and all
other fields untouched. -/
def resolves_with_defaults (dd a b : cell_attributes) : Prop :=
  b.flags = a.flags ∧
  b.foreground = (if a.foreground.is_default then
      (if a.flags &&& f_reverse ≠ 0 then dd.background else dd.foreground)
    else a.foreground) ∧
  b.background = (if a.background.is_default then
      (if a.flags &&& f_reverse ≠ 0 then dd.foreground else dd.background)
    else a.background) ∧
  b.special = (if a.special.is_default then dd.special else a.special)

/-! ## List indexing helper lemmas -/

theorem list_getD_map {α β : Type} (f : α → β) :
    ∀ (l : List α) (i : Nat), i < l.length →
      ∀ (d : β) (dd : α), (l.map f).getD i d = f (l.getD i dd) := by
  intro l
  induction l with
  | nil => intro i hi; simp at hi
  | cons a as ih =>
    intro i hi d dd
    cases i with
    | zero => rfl
    | succ n =>
      simp only [List.map_cons, List.getD_cons_succ]
      exact ih n (by simpa using hi) d dd

theorem list_getD_set_ne {α : Type} :
    ∀ (l : List α) (j : Nat) (v : α) (i : Nat) (d : α), i ≠ j →
      (l.set j v).getD i d = l.getD i d := by
  intro l
  induction l with
  | nil => intro j v i d _; rfl
  | cons a as ih =>
    intro j v i d hij
    cases j with
    | zero =>
      cases i with
      | zero => exact absurd rfl hij
      | succ n => rfl
    | succ m =>
      cases i with
      | zero => rfl
      | succ n =>
        simp only [List.set_cons_succ, List.getD_cons_succ]
        exact ih m v n d (by omega)

theorem list_getD_set_self {α : Type} :
    ∀ (l : List α) (j : Nat) (v : α) (d : α), j < l.length →
      (l.set j v).getD j d = v := by
  intro l
  induction l with
  | nil => intro j v d hj; simp at hj
  | cons a as ih =>
    intro j v d hj
    cases j with
    | zero => rfl
    | succ m =>
      simp only [List.set_cons_succ, List.getD_cons_succ]
      exact ih m v d (by simpa using hj)

/-! ## C1 -/

/-- C1: refuted at a concrete input (the claim states that defining id
`k` past the current length `n` backfills `[n, k)` and creates the
entry for id `k` itself so that `resolve(k)` returns the new record).
On a table of length 1, `hl_attr_define 2 {foreground: 7}` leaves a
table of length 2: the parsed record lands at index 1
(`table.resize(hlid, ...)` followed by `&table.back()`), and resolving
id 2 still yields the id-0 default, not the newly defined record. -/
theorem C1_gap_define_misses_requested_id :
    (hl_attr_define sample_state 2 [(.str "foreground", .int 7)]).hltable.length = 2 ∧
    ((hl_attr_define sample_state 2 [(.str "foreground", .int 7)]).hltable.getD 1 attrs0).foreground = ⟨7, false⟩ ∧
    hl_get_entry (hl_attr_define sample_state 2 [(.str "foreground", .int 7)]).hltable 2 = attrs0 ∧
    hl_get_entry (hl_attr_define sample_state 2 [(.str "foreground", .int 7)]).hltable 2 ≠
      (hl_attr_define sample_state 2 [(.str "foreground", .int 7)]).hltable.getD 1 attrs0 := by
  decide

/-! ## C2 -/

/-- C2: after `flush`, the grid that becomes the new writing target is
identical in content (cells, cursor, version tick) to the grid just
published as complete, which is the pre-flush writing grid with its
tick incremented. -/
theorem C2_flush_new_writing_equals_published : ∀ s : ui_state,
    (flush s).1.writing = (flush s).1.complete ∧
    (flush s).1.complete = { s.writing with draw_tick := s.writing.draw_tick + 1 } := by
  intro s
  unfold flush
  by_cases h : s.flush_wait <;> simp [h]

/-! ## C3 -/

/-- C3: refuted at a concrete input.  A `default_colors_set` tuple with
five arguments (two more than the three declared parameters) whose
leading elements type-check is dispatched (the handler is invoked on
the first three), although its length does not equal the declared
parameter count — the check is `size <= args.size()`, not equality. -/
theorem C3_longer_tuple_still_invoked :
    apply_one [.pU32, .pU32, .pU32] (.arr [.int 1, .int 2, .int 3, .int 4, .int 5]) =
      some [.int 1, .int 2, .int 3] ∧
    [msg_object.int 1, .int 2, .int 3, .int 4, .int 5].length ≠
      [param_type.pU32, .pU32, .pU32].length :=
  ⟨rfl, by decide⟩

/-- C3 (amended): a handler is invoked exactly when the tuple is a
sequence of length at least the declared parameter count whose leading
elements satisfy the declared types (extra trailing elements are
ignored and unchecked); on mismatch only that tuple is skipped and
every tuple of the event is still processed independently. -/
theorem C3_tuple_dispatch :
    ∀ ts : List param_type,
      (∀ (o : msg_object) (res : List msg_object),
        apply_one ts o = some res ↔
          ∃ args, o = .arr args ∧ ts.length ≤ args.length ∧
            types_match ts args = true ∧ res = args.take ts.length) ∧
      (∀ tuples : List msg_object, apply ts tuples = tuples.map (apply_one ts)) := by
  intro ts
  constructor
  · intro o res
    cases o with
    | int n =>
      exact ⟨fun h => Option.noConfusion h,
             fun ⟨_, harr, _⟩ => msg_object.noConfusion harr⟩
    | boolean b =>
      exact ⟨fun h => Option.noConfusion h,
             fun ⟨_, harr, _⟩ => msg_object.noConfusion harr⟩
    | str t =>
      exact ⟨fun h => Option.noConfusion h,
             fun ⟨_, harr, _⟩ => msg_object.noConfusion harr⟩
    | map m =>
      exact ⟨fun h => Option.noConfusion h,
             fun ⟨_, harr, _⟩ => msg_object.noConfusion harr⟩
    | arr args =>
      show (if ts.length ≤ args.length then
              if types_match ts args then some (args.take ts.length) else none
            else none) = some res ↔ _
      constructor
      · intro h
        split at h
        next hle =>
          split at h
          next hm => exact ⟨args, rfl, hle, hm, (Option.some.inj h).symm⟩
          next => exact Option.noConfusion h
        next => exact Option.noConfusion h
      · rintro ⟨args2, harr, h1, h2, hres⟩
        obtain rfl : args = args2 := by injection harr
        subst hres
        rw [if_pos h1, if_pos h2]
  · intro tuples
    induction tuples with
    | nil => rfl
    | cons o os ih => simp [apply, ih]

/-! ## C5 -/

/-- C5: refuted at a concrete input.  With a two-entry mode table,
`mode_change("x", 1)` takes the in-range path (it installs mode 1's
cursor attributes on the writing grid) yet the stored current-mode
index stays 0: the claim's "updates the current-mode index to `index`"
does not hold. -/
theorem C5_mode_change_leaves_index :
    (mode_change s5 "x" 1).writing.cursor_attrs = mi_v.cursor_attrs ∧
    (mode_change s5 "x" 1).current_mode = 0 ∧
    (mode_change s5 "x" 1).current_mode ≠ 1 := by
  decide

/-- C5 (amended): `mode_info_set` resets the current-mode index to 0;
`mode_change` with an in-range index installs that mode's cursor
attributes on the writing grid and leaves everything else — including
the stored current-mode index — unchanged; an out-of-range index logs
and leaves the whole state (and thus the previously selected cursor
attributes) unchanged. -/
theorem C5_mode_table_behavior :
    (∀ (s : ui_state) (enabled : Bool) (maps : List msg_object),
      (mode_info_set s enabled maps).current_mode = 0) ∧
    (∀ (s : ui_state) (n : String) (i : Nat), i < s.mode_info_table.length →
      mode_change s n i = { s with writing := { s.writing with
        cursor_attrs := (s.mode_info_table.getD i mode_info0).cursor_attrs } }) ∧
    (∀ (s : ui_state) (n : String) (i : Nat), s.mode_info_table.length ≤ i →
      mode_change s n i = s) := by
  refine ⟨fun s _ _ => rfl, fun s n i hi => ?_, fun s n i hi => ?_⟩
  · unfold mode_change
    rw [if_neg (by omega)]
  · unfold mode_change
    rw [if_pos hi]

/-- C5 witness: the amended statement at concrete inputs. -/
theorem C5_mode_table_witness :
    (mode_info_set sample_state true []).current_mode = 0 ∧
    mode_change s5 "x" 1 = { s5 with writing := { s5.writing with
      cursor_attrs := (s5.mode_info_table.getD 1 mode_info0).cursor_attrs } } ∧
    mode_change s5 "x" 5 = s5 :=
  ⟨C5_mode_table_behavior.1 sample_state true [],
   C5_mode_table_behavior.2.1 s5 "x" 1 (by decide),
   C5_mode_table_behavior.2.2 s5 "x" 5 (by decide)⟩

/-! ## C6 -/

/-- C6: within one `grid_line` event, a one-element cell update
`[text]` keeps the highlight of the loop state (i.e. of the
immediately preceding update), the loop state `grid_line` starts from
has a null highlight ("no highlight change"), and an update carrying an
id resolves it through the highlight table. -/
theorem C6_omitted_highlight_persists :
    (∀ (ht : List cell_attributes) (u : cell_update) (t : String),
      cell_update.set ht u (.arr [.str t]) =
        some { text := t, hlattr := u.hlattr, rep := 1 }) ∧
    cu_init.hlattr = none ∧
    (∀ (ht : List cell_attributes) (u : cell_update) (t : String) (i : Int),
      cell_update.set ht u (.arr [.str t, .int i]) =
        some { text := t, hlattr := some (hl_get_entry ht (to_size i)), rep := 1 }) :=
  ⟨fun _ _ _ => rfl, rfl, fun _ _ _ _ => rfl⟩

/-! ## C9 -/

theorem list_getD_take {α : Type} : ∀ (l : List α) (k j : Nat) (d : α),
    j < k → (l.take k).getD j d = l.getD j d := by
  intro l
  induction l with
  | nil => intro k j d _; simp
  | cons a as ih =>
    intro k j d hj
    cases k with
    | zero => omega
    | succ m =>
      cases j with
      | zero => rfl
      | succ n =>
        show (as.take m).getD n d = as.getD n d
        exact ih m n d (by omega)

theorem list_drop_cons {α : Type} : ∀ (l : List α) (i : Nat) (d : α),
    i < l.length → l.drop i = l.getD i d :: l.drop (i + 1) := by
  intro l
  induction l with
  | nil => intro i d hi; simp at hi
  | cons a as ih =>
    intro i d hi
    cases i with
    | zero => rfl
    | succ n =>
      show as.drop n = _
      exact ih n d (by simpa using hi)

theorem list_getD_drop {α : Type} : ∀ (l : List α) (n k : Nat) (d : α),
    (l.drop n).getD k d = l.getD (n + k) d := by
  intro l
  induction l with
  | nil => intro n k d; simp
  | cons a as ih =>
    intro n k d
    cases n with
    | zero => simp [Nat.zero_add]
    | succ m =>
      show (as.drop m).getD k d = _
      rw [ih m k d]
      have hidx : m + 1 + k = (m + k) + 1 := by omega
      rw [hidx]
      rfl

theorem takeWhile_length_le {α : Type} (p : α → Bool) :
    ∀ l : List α, (l.takeWhile p).length ≤ l.length := by
  intro l
  induction l with
  | nil => simp
  | cons a as ih =>
    by_cases h : p a
    · rw [List.takeWhile_cons_of_pos h]
      simpa using ih
    · rw [List.takeWhile_cons_of_neg (by simpa using h)]
      simp

theorem takeWhile_getD {α : Type} (p : α → Bool) :
    ∀ (l : List α) (k : Nat) (d : α),
      k < (l.takeWhile p).length → p (l.getD k d) = true := by
  intro l
  induction l with
  | nil => intro k d h; simp at h
  | cons a as ih =>
    intro k d h
    by_cases ha : p a
    · rw [List.takeWhile_cons_of_pos ha] at h
      cases k with
      | zero => exact ha
      | succ n => exact ih n d (by simpa using h)
    · rw [List.takeWhile_cons_of_neg (by simpa using ha)] at h
      simp at h

theorem dec_val_acc : ∀ (l : List Char) (a : Nat),
    l.foldl (fun a c => a * 10 + (c.toNat - 48)) a =
      a * 10 ^ l.length + dec_val l := by
  intro l
  induction l with
  | nil => intro a; simp [dec_val]
  | cons c r ih =>
    intro a
    have hd : dec_val (c :: r) = (c.toNat - 48) * 10 ^ r.length + dec_val r := by
      show r.foldl _ (0 * 10 + (c.toNat - 48)) = _
      rw [ih]
      ring_nf
    show r.foldl _ (a * 10 + (c.toNat - 48)) = _
    rw [ih, hd, List.length_cons]
    ring

theorem dec_val_reverse : ∀ l : List Char, dec_val l.reverse = revval l := by
  intro l
  induction l with
  | nil => rfl
  | cons c r ih =>
    rw [List.reverse_cons]
    show (r.reverse ++ [c]).foldl _ 0 = _
    rw [List.foldl_append]
    show (dec_val r.reverse) * 10 + (c.toNat - 48) = _
    rw [ih]
    show _ = (c.toNat - 48) + 10 * revval r
    omega

theorem scan_sz_spec : ∀ (l : List Char) (size mult : Nat), size < u64 →
    scan_sz l size mult =
      ((size + mult * revval (l.takeWhile Char.isDigit)) % u64,
       (l.takeWhile Char.isDigit).length) := by
  intro l
  induction l with
  | nil =>
    intro size mult h
    simp [scan_sz, revval, Nat.mod_eq_of_lt h]
  | cons c r ih =>
    intro size mult h
    by_cases hd : c.isDigit
    · unfold scan_sz
      rw [if_pos hd]
      dsimp only
      rw [ih ((size + mult * (c.toNat - 48)) % u64) ((mult * 10) % u64)
        (Nat.mod_lt _ (by decide))]
      rw [List.takeWhile_cons_of_pos hd]
      dsimp only
      rw [Prod.mk.injEq]
      constructor
      · have h1 : ((size + mult * (c.toNat - 48)) % u64 +
            (mult * 10) % u64 * revval (r.takeWhile Char.isDigit)) % u64 =
            ((size + mult * (c.toNat - 48)) +
              (mult * 10) * revval (r.takeWhile Char.isDigit)) % u64 :=
          (Nat.mod_modEq _ _).add ((Nat.mod_modEq _ _).mul_right _)
        rw [h1]
        have h2 : (size + mult * (c.toNat - 48)) +
            (mult * 10) * revval (r.takeWhile Char.isDigit) =
            size + mult * revval (c :: r.takeWhile Char.isDigit) := by
          show _ = size + mult * ((c.toNat - 48) + 10 * revval (r.takeWhile Char.isDigit))
          ring
        rw [h2]
      · simp
    · unfold scan_sz
      rw [if_neg hd]
      rw [List.takeWhile_cons_of_neg (by simpa using hd)]
      simp [revval, Nat.mod_eq_of_lt h]

/-- `make_font` coincides with its declarative description on every
field: strip the trailing digit run when it is non-empty with non-zero
value and preceded by `:h`, else keep the whole field with the default
size. -/
theorem make_font_eq_spec : ∀ (cs : List Char) (d : Rat),
    make_font cs d = spec_make_font cs d := by
  intro cs d
  have hsz := scan_sz_spec cs.reverse 0 1 (by decide)
  unfold make_font spec_make_font
  rw [hsz]
  dsimp only
  have hval : 0 + 1 * revval (cs.reverse.takeWhile Char.isDigit) =
      dec_val ((cs.reverse.takeWhile Char.isDigit).reverse) := by
    rw [dec_val_reverse]
    omega
  rw [hval]
  have hlen : ((cs.reverse.takeWhile Char.isDigit).reverse).length =
      (cs.reverse.takeWhile Char.isDigit).length := List.length_reverse _
  rw [hlen]
  by_cases hall : (cs.reverse.takeWhile Char.isDigit).length = cs.length
  · rw [if_pos hall]
    rw [if_neg (by simp)]
    have h0 : cs.length - (cs.reverse.takeWhile Char.isDigit).length = 0 := by
      omega
    rw [if_neg (by rw [h0]; simp)]
  · rw [if_neg hall]
    have hle : (cs.reverse.takeWhile Char.isDigit).length ≤ cs.length := by
      have := takeWhile_length_le Char.isDigit cs.reverse
      simpa using this
    have hlt : (cs.reverse.takeWhile Char.isDigit).length < cs.length :=
      lt_of_le_of_ne hle hall
    have htl : (cs.take (cs.length - (cs.reverse.takeWhile Char.isDigit).length)).length
        = cs.length - (cs.reverse.takeWhile Char.isDigit).length :=
      List.length_take_of_le (by omega)
    rw [htl]
    rw [list_getD_take cs (cs.length - (cs.reverse.takeWhile Char.isDigit).length)
      (cs.length - (cs.reverse.takeWhile Char.isDigit).length - 1) ' ' (by omega)]
    rw [list_getD_take cs (cs.length - (cs.reverse.takeWhile Char.isDigit).length)
      (cs.length - (cs.reverse.takeWhile Char.isDigit).length - 2) ' ' (by omega)]
    rw [List.take_take]
    rw [Nat.min_eq_left (by omega)]
    have hi2 : cs.length - (cs.reverse.takeWhile Char.isDigit).length - 1 - 1
        = cs.length - (cs.reverse.takeWhile Char.isDigit).length - 2 := by omega
    rw [hi2]
    apply if_congr
    · constructor
      · rintro ⟨h1, h2, h3, h4⟩
        exact ⟨h1, by omega, h3, h4⟩
      · rintro ⟨h1, h2, h3, h4⟩
        exact ⟨h1, by omega, h3, h4⟩
    · rfl
    · rfl

/-- A successful `find_unescaped_comma` scan returns the first
separator position at or after the start position. -/
theorem fuc_scan_some : ∀ (s : List Char) (fuel i p : Nat),
    fuc_scan s i fuel = some p →
    i ≤ p ∧ sep_at s p ∧ ∀ j, i ≤ j → j < p → ¬sep_at s j := by
  intro s fuel
  induction fuel with
  | zero => intro i p h; exact Option.noConfusion h
  | succ m ih =>
    intro i p h
    unfold fuc_scan at h
    split at h
    next hilen =>
      split at h
      next hcond =>
        obtain rfl := Option.some.inj h
        exact ⟨Nat.le_refl _, ⟨hilen, hcond.1, hcond.2.1, hcond.2.2⟩,
               fun j h1 h2 => by omega⟩
      next hcond =>
        obtain ⟨h1, h2, h3⟩ := ih (i + 1) p h
        refine ⟨by omega, h2, ?_⟩
        intro j hij hj
        by_cases hji : j = i
        · subst hji
          intro hsep
          exact hcond ⟨hsep.2.1, hsep.2.2.1, hsep.2.2.2⟩
        · exact h3 j (by omega) hj
    next => exact Option.noConfusion h

/-- A failed `find_unescaped_comma` scan (with adequate fuel) means no
separator exists at or after the start position. -/
theorem fuc_scan_none : ∀ (s : List Char) (fuel i : Nat),
    s.length ≤ i + fuel → fuc_scan s i fuel = none →
    ∀ j, i ≤ j → ¬sep_at s j := by
  intro s fuel
  induction fuel with
  | zero =>
    intro i hfe _ j hj hsep
    have := hsep.1
    omega
  | succ m ih =>
    intro i hfe h
    unfold fuc_scan at h
    split at h
    next hilen =>
      split at h
      next => exact Option.noConfusion h
      next hcond =>
        intro j hj
        by_cases hji : j = i
        · subst hji
          intro hsep
          exact hcond ⟨hsep.2.1, hsep.2.2.1, hsep.2.2.2⟩
        · exact ih (i + 1) (by omega) h j (by omega)
    next hilen =>
      intro j hj hsep
      have := hsep.1
      omega

/-- `find_first_not_of_space`, characterized through the space run
after the start position: it skips exactly the leading spaces and
yields the following position if any non-space remains. -/
theorem ffns_takeWhile : ∀ (s : List Char) (fuel i : Nat),
    s.length ≤ i + fuel →
    ffns_scan s i fuel =
      (if i + ((s.drop i).takeWhile (fun c => c == ' ')).length < s.length
       then some (i + ((s.drop i).takeWhile (fun c => c == ' ')).length)
       else none) := by
  intro s fuel
  induction fuel with
  | zero =>
    intro i hfe
    have hd : s.drop i = [] := List.drop_eq_nil_of_le (by omega)
    rw [hd]
    show none = if i + 0 < s.length then _ else none
    rw [if_neg (by omega)]
  | succ m ih =>
    intro i hfe
    unfold ffns_scan
    split
    next hilen =>
      have hdc : s.drop i = s.getD i ' ' :: s.drop (i + 1) :=
        list_drop_cons s i ' ' hilen
      split
      next hsp =>
        rw [ih (i + 1) (by omega)]
        rw [hdc, hsp]
        rw [List.takeWhile_cons_of_pos (by simp)]
        show _ = if i + (((s.drop (i+1)).takeWhile (fun c => c == ' ')).length + 1) < s.length then
            some (i + (((s.drop (i+1)).takeWhile (fun c => c == ' ')).length + 1)) else none
        have harith : i + (((s.drop (i+1)).takeWhile (fun c => c == ' ')).length + 1)
            = (i + 1) + ((s.drop (i+1)).takeWhile (fun c => c == ' ')).length := by omega
        rw [harith]
      next hsp =>
        rw [hdc]
        rw [List.takeWhile_cons_of_neg (by simpa using hsp)]
        show some i = if i + 0 < s.length then some (i + 0) else none
        rw [if_pos (by omega)]
        have : i + 0 = i := by omega
        rw [this]
    next hilen =>
      have hd : s.drop i = [] := List.drop_eq_nil_of_le (by omega)
      rw [hd]
      show none = if i + 0 < s.length then _ else none
      rw [if_neg (by omega)]

/-- No separator at or after `i` means no field boundary remains. -/
theorem seps_from_nil : ∀ (s : List Char) (i : Nat),
    (∀ j, i ≤ j → ¬sep_at s j) → seps_from s i = [] := by
  intro s i h
  unfold seps_from
  rw [List.filter_eq_nil_iff]
  intro p _
  simp only [decide_eq_true_eq]
  rintro ⟨h1, h2⟩
  exact h p h1 h2

/-- Raising the lower bound across a separator-free stretch does not
change the separator list. -/
theorem seps_from_congr : ∀ (s : List Char) (a b : Nat), a ≤ b →
    (∀ j, a ≤ j → j < b → ¬sep_at s j) → seps_from s a = seps_from s b := by
  intro s a b hab h
  unfold seps_from
  apply List.filter_congr
  intro p _
  rw [decide_eq_decide]
  constructor
  · rintro ⟨h1, h2⟩
    refine ⟨?_, h2⟩
    by_contra hb
    exact h p h1 (by omega) h2
  · rintro ⟨h1, h2⟩
    exact ⟨by omega, h2⟩

theorem filter_sep_range' : ∀ (s : List Char) (i p n a : Nat),
    a ≤ p → p < a + n → i ≤ p → sep_at s p →
    (∀ j, a ≤ j → j < p → ¬(i ≤ j ∧ sep_at s j)) →
    (List.range' a n).filter (fun q => decide (i ≤ q ∧ sep_at s q)) =
      p :: (List.range' a n).filter (fun q => decide (p + 1 ≤ q ∧ sep_at s q)) := by
  intro s i p n
  induction n with
  | zero =>
    intro a h1 h2 h3 h4 h5
    exact absurd h2 (by omega)
  | succ m ihm =>
    intro a h1 h2 h3 h4 h5
    rw [List.range'_succ, List.filter_cons, List.filter_cons]
    by_cases hap : a = p
    · subst hap
      rw [if_pos (by simp only [decide_eq_true_eq]; exact ⟨h3, h4⟩)]
      rw [if_neg (by simp only [decide_eq_true_eq]; rintro ⟨hle, _⟩; omega)]
      congr 1
      apply List.filter_congr
      intro q hq
      obtain ⟨k, hkm, rfl⟩ := List.mem_range'.mp hq
      rw [decide_eq_decide]
      constructor
      · rintro ⟨_, h2⟩
        exact ⟨by omega, h2⟩
      · rintro ⟨_, h2⟩
        exact ⟨by omega, h2⟩
    · have hap' : a < p := by omega
      rw [if_neg (by simp only [decide_eq_true_eq]
                     exact h5 a (Nat.le_refl a) hap')]
      rw [if_neg (by simp only [decide_eq_true_eq]; rintro ⟨hle, _⟩; omega)]
      exact ihm (a + 1) (by omega) (by omega) h3 h4
        (fun j hj1 hj2 => h5 j (by omega) hj2)

/-- The separator list from `i` decomposes at its first element. -/
theorem seps_from_cons : ∀ (s : List Char) (i p : Nat), i ≤ p → sep_at s p →
    (∀ j, i ≤ j → j < p → ¬sep_at s j) →
    seps_from s i = p :: seps_from s (p + 1) := by
  intro s i p h1 h2 h3
  unfold seps_from
  rw [List.range_eq_range']
  exact filter_sep_range' s i p s.length 0 (Nat.zero_le p) (by have := h2.1; omega)
    h1 h2 (fun j _ hj hand => h3 j hand.1 hj hand.2)

/-- The worker loop of `get_fonts` coincides, from any start position,
with the declarative splitter driven by the separator-position list. -/
theorem get_fonts_loop_spec : ∀ (s : List Char) (d : Rat) (fuel i : Nat),
    s.length + 1 ≤ i + fuel →
    get_fonts_loop s d i fuel = fields_from s d i (seps_from s i) := by
  intro s d fuel
  induction fuel with
  | zero =>
    intro i hfe
    rw [seps_from_nil s i (fun j hj hsep => by have := hsep.1; omega)]
    show none = _
    unfold fields_from
    rw [if_neg (by omega)]
  | succ m ih =>
    intro i hfe
    unfold get_fonts_loop
    cases hfu : find_unescaped_comma s i with
    | none =>
      dsimp only
      have hnone := fuc_scan_none s (s.length + 1) i (by omega) hfu
      rw [seps_from_nil s i hnone]
      unfold fields_from
      rw [make_font_eq_spec]
    | some p =>
      dsimp only
      obtain ⟨hip, hsep, hmin⟩ := fuc_scan_some s (s.length + 1) i p hfu
      rw [seps_from_cons s i p hip hsep hmin]
      have htw := ffns_takeWhile s (s.length + 1) (p + 1) (by omega)
      cases hffns : find_first_not_of_space s (p + 1) with
      | none =>
        dsimp only
        unfold find_first_not_of_space at hffns
        rw [hffns] at htw
        unfold fields_from
        dsimp only
        split at htw
        next => exact Option.noConfusion htw
        next hc => rw [if_neg hc]
      | some q =>
        dsimp only
        unfold find_first_not_of_space at hffns
        rw [hffns] at htw
        split at htw
        next hc =>
          obtain rfl := Option.some.inj htw
          have hspaces : ∀ j, p + 1 ≤ j →
              j < (p + 1) + ((s.drop (p + 1)).takeWhile (fun c => c == ' ')).length →
              ¬sep_at s j := by
            intro j hj1 hj2 hsepj
            have hk : j - (p + 1) <
                ((s.drop (p + 1)).takeWhile (fun c => c == ' ')).length := by omega
            have hch := takeWhile_getD (fun c => c == ' ') (s.drop (p + 1))
              (j - (p + 1)) ' ' hk
            rw [list_getD_drop] at hch
            have hj' : (p + 1) + (j - (p + 1)) = j := by omega
            rw [hj'] at hch
            have hsp : s.getD j ' ' = ' ' := by simpa using hch
            have hcm := hsepj.2.1
            rw [hsp] at hcm
            exact absurd hcm (by decide)
          rw [seps_from_congr s (p + 1)
            ((p + 1) + ((s.drop (p + 1)).takeWhile (fun c => c == ' ')).length)
            (by omega) hspaces]
          unfold fields_from
          dsimp only
          rw [if_pos hc]
          rw [ih ((p + 1) + ((s.drop (p + 1)).takeWhile (fun c => c == ' ')).length)
            (by omega)]
          rw [make_font_eq_spec]
        next => exact Option.noConfusion htw

/-- C9: refuted at concrete inputs.  The claim says the parser trims
one leading space per field: on `" A,  B"` the code trims no space from
the first field (keeping `" A"`) and trims both spaces from the second
(yielding `"B"`, not `" B"`), because `find_first_not_of(' ')` skips
every leading space after a comma and nothing before the first field.
Moreover, on `",A"` the leading comma — a comma not preceded by a
backslash — does not split: the result is the single field `",A"`, not
the two fields `""` and `"A"`. -/
theorem C9_trimming_and_leading_comma_refuted :
    get_fonts " A,  B" 7 = some [⟨" A", 7⟩, ⟨"B", 7⟩] ∧
    (⟨" A", (7 : Rat)⟩ : font) ≠ ⟨"A", 7⟩ ∧
    (⟨"B", (7 : Rat)⟩ : font) ≠ ⟨" B", 7⟩ ∧
    get_fonts ",A" 7 = some [⟨",A", 7⟩] ∧
    (some [(⟨",A", (7 : Rat)⟩ : font)] : Option (List font)) ≠
      some [⟨"", 7⟩, ⟨"A", 7⟩] := by
  exact ⟨by decide, by decide, by decide, by decide, by decide⟩

/-- C9 (amended): for every stored font-list string, the parser splits
on commas that are preceded by a character other than a backslash (a
comma at the very start of the string, or one right after a backslash,
never splits), skips all leading spaces after each separator comma (the
first field is never trimmed), and strips from each field an optional
trailing `:h<digits>` size suffix with non-zero value, using the given
default size otherwise: `get_fonts` coincides on every input with the
declarative parser `spec_font_list` built from exactly these rules.  In
particular `parse_font_list("Menlo:h14, Courier", 13.0)` yields
`[{Menlo,14.0},{Courier,13.0}]`. -/
theorem C9_font_list_parsing :
    (∀ (guifont : String) (d : Rat),
      get_fonts guifont d = spec_font_list guifont d) ∧
    get_fonts "Menlo:h14, Courier" 13 = some [⟨"Menlo", 14⟩, ⟨"Courier", 13⟩] := by
  constructor
  · intro g d
    unfold get_fonts spec_font_list
    by_cases h : g.length = 0
    · rw [if_pos h, if_pos h]
    · rw [if_neg h, if_neg h]
      exact get_fonts_loop_spec g.toList d (g.length + 2) 0
        (by have : g.toList.length = g.length := rfl; omega)
  · decide

/-! ## C4 -/

theorem count_opt_append : ∀ a b : List notif,
    count_opt (a ++ b) = count_opt a + count_opt b := by
  intro a b
  induction a with
  | nil => simp [count_opt]
  | cons x xs ih => cases x <;> simp [count_opt, ih] <;> omega

theorem not_mem_of_count_opt_zero : ∀ ns : List notif,
    count_opt ns = 0 → notif.options_set ∉ ns := by
  intro ns
  induction ns with
  | nil => intro _ hmem; simp at hmem
  | cons x xs ih =>
    intro hc hmem
    cases x with
    | options_set => simp [count_opt] at hc
    | redraw =>
      rcases List.mem_cons.mp hmem with h | h
      · exact absurd h (by decide)
      · exact ih (by simpa [count_opt] using hc) h
    | title_set =>
      rcases List.mem_cons.mp hmem with h | h
      · exact absurd h (by decide)
      · exact ih (by simpa [count_opt] using hc) h
    | font_set =>
      rcases List.mem_cons.mp hmem with h | h
      · exact absurd h (by decide)
      · exact ih (by simpa [count_opt] using hc) h

theorem set_ext_no_options_set : ∀ (s : ui_state) (v : msg_object)
    (f : options → Bool → options), count_opt (set_ext s v f).2 = 0 := by
  intro s v f
  cases v <;> rfl

theorem ui_set_option_no_options_set :
    ∀ (s : ui_state) (n : String) (v : msg_object),
      count_opt (ui_set_option s n v).2 = 0 := by
  intro s n v
  unfold ui_set_option
  split_ifs
  · cases v <;> rfl
  all_goals first
  | exact set_ext_no_options_set ..
  | rfl

theorem run_set_option_spec : ∀ (s : ui_state) (args : List msg_object),
    ∃ s1 ns, run_set_option s args = some (s1, ns) ∧ count_opt ns = 0 := by
  intro s args
  cases args with
  | nil => exact ⟨s, [], rfl, rfl⟩
  | cons a as =>
    cases a with
    | int k => exact ⟨s, [], rfl, rfl⟩
    | boolean b => exact ⟨s, [], rfl, rfl⟩
    | arr xs => exact ⟨s, [], rfl, rfl⟩
    | map m => exact ⟨s, [], rfl, rfl⟩
    | str n =>
      cases as with
      | nil => exact ⟨s, [], rfl, rfl⟩
      | cons v vs =>
        cases vs with
        | nil => exact ⟨_, _, rfl, ui_set_option_no_options_set s n v⟩
        | cons w ws => exact ⟨s, [], rfl, rfl⟩

theorem handle_option_tuple_spec : ∀ (s : ui_state) (o : msg_object),
    ∃ s1 ns, handle_tuple [.pString, .pObject] run_set_option s o = some (s1, ns) ∧
      count_opt ns = 0 := by
  intro s o
  unfold handle_tuple
  cases hap : apply_one [.pString, .pObject] o with
  | none => exact ⟨s, [], rfl, rfl⟩
  | some args => simpa using run_set_option_spec s args

theorem apply_option_tuples_spec : ∀ (tuples : List msg_object) (s : ui_state),
    ∃ s1 ns,
      apply_event [.pString, .pObject] run_set_option s tuples = some (s1, ns) ∧
      count_opt ns = 0 := by
  intro tuples
  induction tuples with
  | nil => intro s; exact ⟨s, [], rfl, rfl⟩
  | cons o os ih =>
    intro s
    obtain ⟨s1, ns, h1, hc1⟩ := handle_option_tuple_spec s o
    obtain ⟨s2, ns2, h2, hc2⟩ := ih s1
    refine ⟨s2, ns ++ ns2, ?_, ?_⟩
    · simp [apply_event, h1, h2]
    · rw [count_opt_append, hc1, hc2]

/-- C4: refuted at a concrete input (the claim is per batch).  A batch
of two `option_set` events toggling `ext_cmdline` on and back off makes
the `options_set` notification fire twice within the batch, although
after the batch no option differs from its value before the batch (the
resulting state is exactly the initial one). -/
theorem C4_two_option_events_fire_twice :
    redraw sample_state
        [.arr [.str "option_set", .arr [.str "ext_cmdline", .boolean true]],
         .arr [.str "option_set", .arr [.str "ext_cmdline", .boolean false]]] =
      some (sample_state, [.options_set, .options_set]) ∧
    ¬count_opt [.options_set, .options_set] ≤ 1 := by
  refine ⟨by decide, by decide⟩

/-- C4 (amended): per `option_set` event (not per batch): while
processing one `option_set` event the `options_set` notification fires
at most once, and it fires exactly when some extension-flag option
changed from its value immediately before that event. -/
theorem C4_options_set_once_per_event :
    ∀ (s : ui_state) (tuples : List msg_object) (s1 : ui_state) (ns : List notif),
      redraw_event s (.arr (.str "option_set" :: tuples)) = some (s1, ns) →
      count_opt ns ≤ 1 ∧ (notif.options_set ∈ ns ↔ s1.opts ≠ s.opts) := by
  intro s tuples s1 ns h
  obtain ⟨s2, ns2, h2, hc2⟩ := apply_option_tuples_spec tuples s
  have hred : redraw_event s (.arr (.str "option_set" :: tuples)) =
      some (s2, if s2.opts = s.opts then ns2 else ns2 ++ [.options_set]) := by
    show option_set_event s tuples = _
    unfold option_set_event
    rw [h2]
  rw [hred] at h
  by_cases heq : s2.opts = s.opts
  · rw [if_pos heq] at h
    injection h with h'
    rw [Prod.mk.injEq] at h'
    obtain ⟨rfl, rfl⟩ := h'
    refine ⟨by omega, ?_⟩
    simp [not_mem_of_count_opt_zero ns2 hc2, heq]
  · rw [if_neg heq] at h
    injection h with h'
    rw [Prod.mk.injEq] at h'
    obtain ⟨rfl, rfl⟩ := h'
    constructor
    · rw [count_opt_append, hc2]
      simp [count_opt]
    · simp [heq]

/-- C4 witness: the amended statement at a concrete event. -/
theorem C4_options_set_once_witness :
    count_opt [notif.options_set] ≤ 1 ∧
    (notif.options_set ∈ [notif.options_set] ↔
      ({ sample_state with
          opts := { sample_state.opts with ext_cmdline := true } } : ui_state).opts ≠
        sample_state.opts) :=
  C4_options_set_once_per_event sample_state
    [.arr [.str "ext_cmdline", .boolean true]]
    { sample_state with opts := { sample_state.opts with ext_cmdline := true } }
    [.options_set] (by decide)

/-! ## C7 -/

theorem set_run_untouched : ∀ (n : Nat) (cells : List cell) (pos : Nat)
    (c : cell) (i : Nat) (d : cell), i < pos ∨ pos + n ≤ i →
    (set_run cells pos c n).getD i d = cells.getD i d := by
  intro n
  induction n with
  | zero => intro cells pos c i d _; rfl
  | succ m ih =>
    intro cells pos c i d hi
    show (set_run (cells.set pos c) (pos + 1) c m).getD i d = _
    rw [ih (cells.set pos c) (pos + 1) c i d (by omega)]
    exact list_getD_set_ne cells pos c i d (by omega)

theorem write_run_untouched : ∀ (cells : List cell) (pos : Nat) (c : cell)
    (rep i : Nat) (d : cell), pos + rep < i →
    (write_run cells pos c rep).getD i d = cells.getD i d := by
  intro cells pos c rep i d hi
  unfold write_run
  rw [set_run_untouched (rep - 1) (cells.set pos c) (pos + 1) c i d (by omega)]
  exact list_getD_set_ne cells pos c i d (by omega)

theorem grid_line_step_untouched :
    ∀ (ht : List cell_attributes) (rb : Nat) (st : line_state)
      (o : msg_object) (st' : line_state),
      grid_line_step ht rb st o = some st' →
      st.pos ≤ st'.pos ∧
      ∀ i d, st'.pos < i → st'.g.cells.getD i d = st.g.cells.getD i d := by
  intro ht rb st o st' h
  unfold grid_line_step at h
  cases hset : cell_update.set ht st.upd o with
  | none => rw [hset] at h; exact Option.noConfusion h
  | some u =>
    rw [hset] at h
    simp only at h
    split at h
    next => exact Option.noConfusion h
    next hrep =>
      split at h
      next hempty =>
        split at h
        next => exact Option.noConfusion h
        next hpos =>
          obtain rfl := Option.some.inj h
          dsimp only
          refine ⟨by omega, ?_⟩
          intro i d hi
          rw [list_getD_set_ne _ (st.pos - 1) _ i d (by omega)]
          rw [list_getD_set_ne _ st.pos _ i d (by omega)]
      next hnempty =>
        obtain rfl := Option.some.inj h
        dsimp only
        refine ⟨by omega, ?_⟩
        intro i d hi
        exact write_run_untouched st.g.cells st.pos (mk_cell u.text u.hlattr)
          u.rep i d (by omega)

theorem grid_line_fold_untouched :
    ∀ (ht : List cell_attributes) (rb : Nat) (us : List msg_object)
      (st st' : line_state),
      grid_line_fold ht rb st us = some st' →
      st.pos ≤ st'.pos ∧
      ∀ i d, st'.pos < i → st'.g.cells.getD i d = st.g.cells.getD i d := by
  intro ht rb us
  induction us with
  | nil =>
    intro st st' h
    obtain rfl := Option.some.inj h
    exact ⟨Nat.le_refl _, fun _ _ _ => rfl⟩
  | cons o os ih =>
    intro st st' h
    unfold grid_line_fold at h
    cases hstep : grid_line_step ht rb st o with
    | none => rw [hstep] at h; exact Option.noConfusion h
    | some st1 =>
      rw [hstep] at h
      simp only at h
      obtain ⟨h1, h2⟩ := grid_line_step_untouched ht rb st o st1 hstep
      obtain ⟨h3, h4⟩ := ih st1 st' h
      refine ⟨by omega, ?_⟩
      intro i d hi
      rw [h4 i d hi]
      exact h2 i d (by omega)

theorem grid_line_go_append :
    ∀ (ht : List cell_attributes) (rb : Nat) (us v : List msg_object)
      (st st' : line_state),
      grid_line_fold ht rb st us = some st' →
      grid_line_go ht rb st (us ++ v) = grid_line_go ht rb st' v := by
  intro ht rb us
  induction us with
  | nil =>
    intro v st st' h
    obtain rfl := Option.some.inj h
    rfl
  | cons o os ih =>
    intro v st st' h
    unfold grid_line_fold at h
    cases hstep : grid_line_step ht rb st o with
    | none => rw [hstep] at h; exact Option.noConfusion h
    | some st1 =>
      rw [hstep] at h
      simp only at h
      show (match grid_line_step ht rb st o with
            | none => st.g
            | some st2 => grid_line_go ht rb st2 (os ++ v)) = _
      rw [hstep]
      exact ih v st1 st' h

/-- C7: if, inside one `grid_line` event, the updates `us` process
successfully (reaching loop state `st'`) and the next update's repeat
count exceeds the remaining row width, then the whole event (including
any further updates `rest`) produces exactly the grid `st'.g` that the
earlier updates built — their cells keep the newly written values, the
rest of the event is dropped — and every cell beyond the overflow
position still holds its prior contents. -/
theorem C7_row_overflow_aborts :
    ∀ (ht : List cell_attributes) (g : grid) (row col : Nat)
      (us : List msg_object) (u : msg_object) (rest : List msg_object)
      (st' : line_state) (u' : cell_update),
      row < g.grid_height → col < g.grid_width →
      grid_line_fold ht (row * g.grid_width)
        { g := g, pos := row * g.grid_width + col,
          remaining := g.grid_width - col, upd := cu_init } us = some st' →
      cell_update.set ht st'.upd u = some u' →
      st'.remaining < u'.rep →
      grid_line_impl ht g row col (us ++ u :: rest) = st'.g ∧
      grid_line_impl ht g row col us = st'.g ∧
      (∀ i d, st'.pos < i → st'.g.cells.getD i d = g.cells.getD i d) := by
  intro ht g row col us u rest st' u' hrow hcol hfold hset hover
  have hnb : ¬(g.grid_height ≤ row ∨ g.grid_width ≤ col) := by omega
  have hstep : grid_line_step ht (row * g.grid_width) st' u = none := by
    unfold grid_line_step
    rw [hset]
    simp only
    rw [if_pos hover]
  refine ⟨?_, ?_, ?_⟩
  · unfold grid_line_impl
    rw [if_neg hnb]
    rw [grid_line_go_append ht (row * g.grid_width) us (u :: rest) _ st' hfold]
    simp [grid_line_go, hstep]
  · unfold grid_line_impl
    rw [if_neg hnb]
    have h2 := grid_line_go_append ht (row * g.grid_width) us [] _ st' hfold
    rw [List.append_nil] at h2
    rw [h2]
    rfl
  · intro i d hi
    exact (grid_line_fold_untouched ht (row * g.grid_width) us _ st' hfold).2 i d hi

/-- C7 witness: on a 1-by-4 row of `x` cells, `["a", 0, 2]` writes two
`a` cells; the following `["b", 0, 3]` overflows the two remaining
cells, so the event (with or without a further update) leaves the grid
as the first update built it, and the cell past the overflow point is
unchanged. -/
theorem C7_row_overflow_witness :
    grid_line_impl [attrs0] g_row 0 0
        [.arr [.str "a", .int 0, .int 2], .arr [.str "b", .int 0, .int 3],
         .arr [.str "z", .int 0, .int 1]] = st1_row.g ∧
    grid_line_impl [attrs0] g_row 0 0 [.arr [.str "a", .int 0, .int 2]] = st1_row.g ∧
    st1_row.g.cells.getD 3 cell0 = g_row.cells.getD 3 cell0 := by
  have h := C7_row_overflow_aborts [attrs0] g_row 0 0
    [.arr [.str "a", .int 0, .int 2]] (.arr [.str "b", .int 0, .int 3])
    [.arr [.str "z", .int 0, .int 1]] st1_row
    { text := "b", hlattr := some attrs0, rep := 3 }
    (by decide) (by decide) (by decide) (by decide) (by decide)
  exact ⟨h.1, h.2.1, h.2.2 3 cell0 (by decide)⟩

/-! ## C8 -/

theorem adjust_defaults_spec : ∀ dd a : cell_attributes,
    resolves_with_defaults dd a (adjust_defaults dd a) := by
  intro dd a
  exact ⟨rfl, rfl, rfl, rfl⟩

theorem adjust_defaults_self : ∀ fg bg sp : Nat,
    adjust_defaults (dcs_default fg bg sp) (dcs_default fg bg sp) =
      dcs_default fg bg sp := by
  intro fg bg sp
  simp [adjust_defaults, dcs_default, f_reverse]

/-- C8: `default_colors_set(fg, bg, sp)` leaves the published complete
grid and the cursor attributes of the writing grid completely
unchanged, rewrites highlight id 0 to the new default record, and
re-resolves every use-default color field (and only those fields) in
every other record of the highlight table and in every cell of the
writing grid. -/
theorem C8_default_colors_scope :
    ∀ (s : ui_state) (fg bg sp : Nat), s.hltable ≠ [] →
      (default_colors_set s fg bg sp).complete = s.complete ∧
      (default_colors_set s fg bg sp).writing.cursor_attrs = s.writing.cursor_attrs ∧
      (default_colors_set s fg bg sp).hltable.length = s.hltable.length ∧
      (default_colors_set s fg bg sp).writing.cells.length = s.writing.cells.length ∧
      (default_colors_set s fg bg sp).hltable.getD 0 attrs0 = dcs_default fg bg sp ∧
      (∀ i, 0 < i → i < s.hltable.length →
        resolves_with_defaults (dcs_default fg bg sp) (s.hltable.getD i attrs0)
          ((default_colors_set s fg bg sp).hltable.getD i attrs0)) ∧
      (∀ j, j < s.writing.cells.length →
        ((default_colors_set s fg bg sp).writing.cells.getD j cell0).text =
          (s.writing.cells.getD j cell0).text ∧
        resolves_with_defaults (dcs_default fg bg sp)
          ((s.writing.cells.getD j cell0).attrs)
          (((default_colors_set s fg bg sp).writing.cells.getD j cell0).attrs)) := by
  intro s fg bg sp hne
  have hlen : 0 < s.hltable.length := List.length_pos.mpr hne
  have htab : (default_colors_set s fg bg sp).hltable =
      (s.hltable.set 0 (dcs_default fg bg sp)).map
        (adjust_defaults (dcs_default fg bg sp)) := rfl
  have hcells : (default_colors_set s fg bg sp).writing.cells =
      s.writing.cells.map
        (fun c => { c with attrs := adjust_defaults (dcs_default fg bg sp) c.attrs }) := rfl
  refine ⟨rfl, rfl, ?_, ?_, ?_, ?_, ?_⟩
  · rw [htab, List.length_map, List.length_set]
  · rw [hcells, List.length_map]
  · rw [htab]
    rw [list_getD_map _ _ 0 (by rw [List.length_set]; exact hlen) attrs0 attrs0]
    rw [list_getD_set_self _ 0 _ _ hlen]
    exact adjust_defaults_self fg bg sp
  · intro i hi0 hilt
    rw [htab]
    rw [list_getD_map _ _ i (by rw [List.length_set]; exact hilt) attrs0 attrs0]
    rw [list_getD_set_ne _ 0 _ i _ (by omega)]
    exact adjust_defaults_spec _ _
  · intro j hj
    rw [hcells]
    rw [list_getD_map _ _ j hj cell0 cell0]
    exact ⟨rfl, adjust_defaults_spec _ _⟩

/-- C8 witness: the statement at a concrete state (`s8`): a reverse
record with use-default background and a concrete record in the
writing cells, a distinct complete grid. -/
theorem C8_default_colors_witness :
    (default_colors_set s8 10 20 30).complete = s8.complete ∧
    (default_colors_set s8 10 20 30).hltable.getD 0 attrs0 = dcs_default 10 20 30 ∧
    resolves_with_defaults (dcs_default 10 20 30) (s8.hltable.getD 1 attrs0)
      ((default_colors_set s8 10 20 30).hltable.getD 1 attrs0) ∧
    ((default_colors_set s8 10 20 30).writing.cells.getD 0 cell0).text =
      (s8.writing.cells.getD 0 cell0).text ∧
    resolves_with_defaults (dcs_default 10 20 30)
      ((s8.writing.cells.getD 0 cell0).attrs)
      (((default_colors_set s8 10 20 30).writing.cells.getD 0 cell0).attrs) := by
  have h := C8_default_colors_scope s8 10 20 30 (by decide)
  exact ⟨h.1, h.2.2.2.2.1, h.2.2.2.2.2.1 1 (by decide) (by decide),
         (h.2.2.2.2.2.2 0 (by decide)).1, (h.2.2.2.2.2.2 0 (by decide)).2⟩

/-! ## C10 -/

/-- C10: every well-formed `set_title` event stores the title and fires
the `title_set` notification, for every prior state — in particular
also when the new title equals the current one (no deduplication
against the prior value). -/
theorem C10_set_title_always_notifies : ∀ (s : ui_state) (t : String),
    redraw_event s (.arr [.str "set_title", .arr [.str t]]) =
      some ({ s with option_title := t }, [.title_set]) :=
  fun _ _ => rfl

end nvim
